import Mathlib

/-!
# Upload / view HTTP handlers (`main.go`)

A shallow embedding of the two request handlers of `main.go` and of the
handler that `TestViewHandler` (`main_test.go`) defines locally.

* Text is `String`; file contents are lists of bytes.
* The response writer is modelled after `httptest.ResponseRecorder`: a status
  code (200 until a header is written), the header map, the body written so far.
* The file system is explicit state: a map from path to the contents of the
  regular file at that path, a trace of the file-system calls issued, and the
  outcomes the operating system gives to `os.Create`, to the copy performed by
  `ReadFrom` and to `os.ReadDir` (these can fail for reasons outside the program).
* `r.FormFile` is the request's answer for a field name: either an error or the
  bytes of the part together with its header. `Filename` is the name as
  `FormFile` reports it to the handler; multipart parsing itself is not modelled.
* `filepath.Join` / `filepath.Clean` follow the Unix algorithm of the Go
  standard library (separator `/`, no volume names).
-/

namespace Main

/-! ## Standard-library pieces used by the handlers -/

abbrev Bytes := List UInt8

/-- Unix `os.IsPathSeparator`. -/
def os.IsPathSeparator (c : Char) : Bool := c == '/'

/-- The test `r+k == n || os.IsPathSeparator(path[r+k])` on the rest of the path
starting at index `r+k`. -/
def atElementEnd : List Char → Bool
  | [] => true
  | c :: _ => os.IsPathSeparator c

/-- The output buffer of `Clean` (the bytes written so far, `w` being its length)
together with `dotdot`, the index where `..` must stop. -/
structure CleanState where
  out : List Char
  dotdot : Nat
  deriving DecidableEq, Repr

/-- The backtracking loop of the `..` case, started after the first `out.w--`:
`for out.w > dotdot && !os.IsPathSeparator(out.index(out.w)) { out.w-- }`.
Returns the final `out.w`. -/
def backtrack (out : List Char) (dotdot : Nat) : Nat → Nat
  | 0 => 0
  | w + 1 =>
    if w + 1 > dotdot && !os.IsPathSeparator (out.getD (w + 1) '/') then
      backtrack out dotdot w
    else w + 1

/-- Copy of a real path element:
`for ; r < n && !os.IsPathSeparator(path[r]); r++ { out.append(path[r]) }`.
Returns the unread rest of the path and the buffer. -/
def copyElement : List Char → List Char → List Char × List Char
  | [], out => ([], out)
  | c :: rest, out =>
    if os.IsPathSeparator c then (c :: rest, out) else copyElement rest (out ++ [c])

/-- The main loop `for r < n { switch ... }` of `Clean`, over the unread rest of
the path. Every iteration consumes at least one byte, so a fuel equal to the
length of the rest is never exhausted (`cleanLoop_fuel`). -/
def cleanLoop (rooted : Bool) : Nat → List Char → CleanState → CleanState
  | 0, _, s => s
  | _ + 1, [], s => s
  | fuel + 1, c :: rest, s =>
    if os.IsPathSeparator c then
      -- empty path element
      cleanLoop rooted fuel rest s
    else if c == '.' && atElementEnd rest then
      -- . element
      cleanLoop rooted fuel rest s
    else if c == '.' && rest.head? == some '.' && atElementEnd rest.tail then
      -- .. element: remove to last separator
      if s.out.length > s.dotdot then
        -- can backtrack
        let w := backtrack s.out s.dotdot (s.out.length - 1)
        cleanLoop rooted fuel rest.tail { s with out := s.out.take w }
      else if !rooted then
        -- cannot backtrack, but not rooted, so append .. element.
        let out := if s.out.length > 0 then s.out ++ ['/'] else s.out
        let out := out ++ ['.', '.']
        cleanLoop rooted fuel rest.tail { out := out, dotdot := out.length }
      else
        cleanLoop rooted fuel rest.tail s
    else
      -- real path element. add slash if needed
      let out :=
        if (rooted && s.out.length != 1) || (!rooted && s.out.length != 0) then s.out ++ ['/']
        else s.out
      -- copy element
      let (rest', out') := copyElement (c :: rest) out
      cleanLoop rooted fuel rest' { s with out := out' }

/-- Unix `filepath.Clean` on the bytes of the path. -/
def cleanChars (path : List Char) : List Char :=
  match path with
  | [] => ['.']
  | c :: rest =>
    let rooted := os.IsPathSeparator c
    let s :=
      if rooted then cleanLoop rooted rest.length rest { out := ['/'], dotdot := 1 }
      else cleanLoop rooted (c :: rest).length (c :: rest) { out := [], dotdot := 0 }
    -- Turn empty string into "."
    if s.out.length == 0 then ['.'] else s.out

/-- Unix `filepath.Clean`. -/
def filepath.Clean (path : String) : String := String.mk (cleanChars path.data)

/-- Unix `filepath.join`: the elements from the first non-empty one on, joined by
the separator and cleaned; the empty string when every element is empty. -/
def filepath.join : List String → String
  | [] => ""
  | e :: rest =>
    if e ≠ "" then filepath.Clean (String.intercalate "/" (e :: rest))
    else filepath.join rest

/-- `filepath.Join(elem...)`. -/
def filepath.Join (elem : List String) : String := filepath.join elem

/-! ### Response writer -/

/-- The response as recorded (`httptest.ResponseRecorder`). -/
structure ResponseWriter where
  Code : Nat
  HeaderMap : List (String × String)
  Body : String
  wroteHeader : Bool
  deriving DecidableEq, Repr

/-- `httptest.NewRecorder()`. -/
def NewRecorder : ResponseWriter :=
  { Code := 200, HeaderMap := [], Body := "", wroteHeader := false }

/-- `w.Header().Set(key, value)`; a header set after the header was written is
not part of the response. -/
def ResponseWriter.HeaderSet (w : ResponseWriter) (key value : String) : ResponseWriter :=
  if w.wroteHeader then w
  else { w with HeaderMap := (key, value) :: w.HeaderMap.filter (fun kv => kv.1 ≠ key) }

/-- `w.Header().Get(key)` of the response as sent. -/
def ResponseWriter.HeaderGet (w : ResponseWriter) (key : String) : Option String :=
  (w.HeaderMap.find? (fun kv => kv.1 = key)).map Prod.snd

/-- `w.WriteHeader(code)`; only the first call counts. -/
def ResponseWriter.WriteHeader (w : ResponseWriter) (code : Nat) : ResponseWriter :=
  if w.wroteHeader then w else { w with Code := code, wroteHeader := true }

/-- `w.Write(s)`: writes the header with status 200 when none was written yet,
then appends to the body. -/
def ResponseWriter.Write (w : ResponseWriter) (s : String) : ResponseWriter :=
  let w := if !w.wroteHeader then w.WriteHeader 200 else w
  { w with Body := w.Body ++ s }

/-- `fmt.Fprint(w, s)` for one string operand. -/
def fmt.Fprint (w : ResponseWriter) (s : String) : ResponseWriter := w.Write s

/-- `fmt.Fprintln(w, s)` for one string operand. -/
def fmt.Fprintln (w : ResponseWriter) (s : String) : ResponseWriter := w.Write (s ++ "\n")

/-- `http.Error(w, error, code)`. -/
def http.Error (w : ResponseWriter) (error : String) (code : Nat) : ResponseWriter :=
  let w := w.HeaderSet "Content-Type" "text/plain; charset=utf-8"
  let w := w.HeaderSet "X-Content-Type-Options" "nosniff"
  let w := w.WriteHeader code
  fmt.Fprintln w error

def http.StatusOK : Nat := 200

def http.StatusBadRequest : Nat := 400

def http.StatusMethodNotAllowed : Nat := 405

def http.StatusInternalServerError : Nat := 500

/-! ### Request -/

/-- `multipart.FileHeader`, as far as the handler reads it. -/
structure FileHeader where
  Filename : String
  deriving DecidableEq, Repr

/-- `http.Request`, as far as the handlers read it: the method and what
`r.FormFile(key)` answers (an error text, or the bytes of the part and its header). -/
structure Request where
  Method : String
  FormFile : String → Except String (Bytes × FileHeader)

/-! ### File system -/

/-- File-system calls issued by the handlers. -/
inductive FsCall where
  | create (path : String)
  | write (path : String) (data : Bytes)
  | readDir (path : String)
  deriving DecidableEq, Repr

/-- The file system the handlers run against. -/
structure Env where
  /-- contents of the regular file at a path, if there is one -/
  files : String → Option Bytes
  /-- file-system calls issued so far, oldest first -/
  calls : List FsCall
  /-- error text with which `os.Create` of a path fails, if it does -/
  createErr : String → Option String
  /-- failure of the copy into a path: the number of bytes written before the
  failure and the error text -/
  copyErr : String → Bytes → Option (Nat × String)
  /-- result of the directory read: error text, or the entry names in the order read -/
  dirEntries : String → Except String (List String)

/-- `os.Create(name)`: creates or truncates the named file. -/
def os.Create (env : Env) (name : String) : Env × Except String String :=
  let env := { env with calls := env.calls ++ [FsCall.create name] }
  match env.createErr name with
  | some e => (env, .error e)
  | none => ({ env with files := Function.update env.files name (some []) }, .ok name)

/-- `dst.ReadFrom(file)` on the file opened at `dst`: appends the bytes read from
`file` to the file at `dst`; on failure only the bytes copied so far are there. -/
def File.ReadFrom (env : Env) (dst : String) (file : Bytes) : Env × Except String Nat :=
  let old := (env.files dst).getD []
  match env.copyErr dst file with
  | some (n, e) =>
    ({ env with
        files := Function.update env.files dst (some (old ++ file.take n)),
        calls := env.calls ++ [FsCall.write dst (file.take n)] }, .error e)
  | none =>
    ({ env with
        files := Function.update env.files dst (some (old ++ file)),
        calls := env.calls ++ [FsCall.write dst file] }, .ok file.length)

/-- `os.ReadDir(name)`: the names of the entries, or the error. -/
def os.ReadDir (env : Env) (name : String) : Env × Except String (List String) :=
  ({ env with calls := env.calls ++ [FsCall.readDir name] }, env.dirEntries name)

/-! ## `main.go` -/

def dataDir : String := "/data"

/-- The handler `uploadHandler` of `main.go`. -/
def uploadHandler (env : Env) (w : ResponseWriter) (r : Request) : Env × ResponseWriter :=
  if r.Method ≠ "POST" then
    (env, http.Error w "Invalid request method" http.StatusMethodNotAllowed)
  else
    match r.FormFile "file" with
    | .error err => (env, http.Error w err http.StatusBadRequest)
    | .ok (file, handler) =>
      match os.Create env (filepath.Join [dataDir, handler.Filename]) with
      | (env, .error err) => (env, http.Error w err http.StatusInternalServerError)
      | (env, .ok dst) =>
        match File.ReadFrom env dst file with
        | (env, .error err) => (env, http.Error w err http.StatusInternalServerError)
        | (env, .ok _) =>
          (env, w.Write ("Upload successful: " ++ handler.Filename))

/-- The loop `for i, file := range files` of `viewHandler`; `n` is `len(files)`
and `i` the index of the first entry of the remaining list. -/
def viewHandler.loop (n : Nat) : Nat → List String → ResponseWriter → ResponseWriter
  | _, [], w => w
  | i, name :: rest, w =>
    let w := w.Write ("\"" ++ name ++ "\"")
    let w := if (i : Int) < (n : Int) - 1 then fmt.Fprint w "," else w
    viewHandler.loop n (i + 1) rest w

/-- The handler `viewHandler` of `main.go`. -/
def viewHandler (env : Env) (w : ResponseWriter) (_r : Request) : Env × ResponseWriter :=
  match os.ReadDir env dataDir with
  | (env, .error err) => (env, http.Error w err http.StatusInternalServerError)
  | (env, .ok files) =>
    let w := w.HeaderSet "Content-Type" "application/json"
    let w := fmt.Fprint w "["
    let w := viewHandler.loop files.length 0 files w
    (env, fmt.Fprint w "]")

/-! ## `main_test.go` -/

/-- The handler that `TestViewHandler` defines locally and serves. -/
def TestViewHandler.viewHandler (tempDir : String) (env : Env) (w : ResponseWriter)
    (_r : Request) : Env × ResponseWriter :=
  match os.ReadDir env tempDir with
  | (env, .error err) => (env, http.Error w err http.StatusInternalServerError)
  | (env, .ok files) => (env, files.foldl (fun w name => fmt.Fprintln w name) w)

/-! ## Concrete inputs used to evaluate the handlers -/

/-- A file system with no files in which every operation succeeds and the
storage directory lists the given names. -/
def envWith (names : List String) : Env :=
  { files := fun _ => none, calls := [], createErr := fun _ => none,
    copyErr := fun _ _ => none, dirEntries := fun _ => .ok names }

/-- A request with the given method carrying one part named `file`. -/
def fileRequest (method filename : String) (content : Bytes) : Request :=
  { Method := method,
    FormFile := fun key =>
      if key = "file" then .ok (content, { Filename := filename })
      else .error "http: no such file" }

/-- A request with the given method and no part named `file`. -/
def bareRequest (method : String) : Request :=
  { Method := method, FormFile := fun _ => .error "http: no such file" }

/-- A file system in which `/data/a.txt` holds four bytes and every operation succeeds. -/
def envExisting : Env :=
  { envWith ["a.txt"] with
    files := fun p => if p = "/data/a.txt" then some [1, 2, 3, 4] else none }

/-! ## Failing file-system operations -/

/-- A file system in which `os.Create` fails. -/
def envCreateFails : Env :=
  { envWith [] with createErr := fun _ => some "permission denied" }

/-- A file system in which the copy fails after two bytes. -/
def envCopyFails : Env :=
  { envWith [] with copyErr := fun _ _ => some (2, "no space left on device") }

/-- A file system in which reading a directory fails. -/
def envReadDirFails : Env :=
  { envWith [] with dirEntries := fun _ => .error "open /data: no such file or directory" }

/-- A file system without files in which every operation succeeds, also creating `/`. -/
def envEmpty : Env := envWith []

/-! ## Reading the body of `viewHandler` back as JSON

The claim on `/view` speaks of the body "once decoded as JSON". The decoder
below reads a JSON array of strings (RFC 8259 grammar: white space, `[`, strings
separated by `,`, `]`; in a string the escapes `\"` `\\` `\/` `\b` `\f` `\n` `\r`
`\t` `\uXXXX`, no raw control character). An escape `\uXXXX` yields the
character of that code point; surrogate halves are not paired. -/

/-- JSON white space. -/
def jsonWs (c : Char) : Bool := c == ' ' || c == '\t' || c == '\n' || c == '\r'

/-- Value of a hexadecimal digit. -/
def hexDigit (c : Char) : Option Nat :=
  if '0' ≤ c ∧ c ≤ '9' then some (c.toNat - 48)
  else if 'a' ≤ c ∧ c ≤ 'f' then some (c.toNat - 87)
  else if 'A' ≤ c ∧ c ≤ 'F' then some (c.toNat - 55)
  else none

/-- The four hexadecimal digits of a `\u` escape and the input after them. -/
def hex4 : List Char → Option (Nat × List Char)
  | a :: b :: c :: d :: rest =>
    match hexDigit a, hexDigit b, hexDigit c, hexDigit d with
    | some a, some b, some c, some d => some (((a * 16 + b) * 16 + c) * 16 + d, rest)
    | _, _, _, _ => none
  | _ => none

/-- The character a one-letter escape stands for. -/
def jsonEscape (e : Char) : Option Char :=
  if e = '\"' then some '\"'
  else if e = '\\' then some '\\'
  else if e = '/' then some '/'
  else if e = 'b' then some (Char.ofNat 8)
  else if e = 'f' then some (Char.ofNat 12)
  else if e = 'n' then some '\n'
  else if e = 'r' then some '\r'
  else if e = 't' then some '\t'
  else none

/-- Reads a JSON string after its opening quote: the decoded text and the input
after the closing quote. Every step consumes input, so a fuel above the length
of the input is never exhausted. -/
def jsonString : Nat → List Char → List Char → Option (List Char × List Char)
  | 0, _, _ => none
  | _ + 1, [], _ => none
  | fuel + 1, c :: rest, acc =>
    if c = '\"' then some (acc, rest)
    else if c = '\\' then
      match rest with
      | [] => none
      | e :: rest2 =>
        if e = 'u' then
          match hex4 rest2 with
          | some (n, rest3) => jsonString fuel rest3 (acc ++ [Char.ofNat n])
          | none => none
        else
          match jsonEscape e with
          | some d => jsonString fuel rest2 (acc ++ [d])
          | none => none
    else if c.toNat < 32 then none
    else jsonString fuel rest (acc ++ [c])

/-- Reads `string (, string)* ]` and the trailing white space. -/
def jsonElements : Nat → List Char → List String → Option (List String)
  | 0, _, _ => none
  | fuel + 1, input, acc =>
    match input.dropWhile jsonWs with
    | c :: rest =>
      if c = '\"' then
        match jsonString (rest.length + 1) rest [] with
        | none => none
        | some (text, rest2) =>
          match rest2.dropWhile jsonWs with
          | d :: rest3 =>
            if d = ',' then jsonElements fuel rest3 (acc ++ [String.mk text])
            else if d = ']' then
              if rest3.dropWhile jsonWs = [] then some (acc ++ [String.mk text]) else none
            else none
          | [] => none
      else none
    | [] => none

/-- Decodes a text as a JSON array of strings; `none` when it is not one. -/
def decodeStringArray (body : String) : Option (List String) :=
  match body.data.dropWhile jsonWs with
  | c :: rest =>
    if c = '[' then
      match rest.dropWhile jsonWs with
      | d :: rest2 =>
        if d = ']' then (if rest2.dropWhile jsonWs = [] then some [] else none)
        else jsonElements (rest.length + 1) rest []
      | [] => none
    else none
  | [] => none

/-- A character that a JSON string may hold unescaped. -/
def plainChar (c : Char) : Prop := c ≠ '\"' ∧ c ≠ '\\' ∧ 32 ≤ c.toNat

/-- The characters `viewHandler` writes after `[` for a non-empty listing. -/
def arrayTail : String → List String → List Char
  | a, [] => '\"' :: (a.data ++ ['\"', ']'])
  | a, b :: more => '\"' :: (a.data ++ '\"' :: ',' :: arrayTail b more)

/-! # Theorems -/

/-! ## Lemmas on the response writer -/

theorem http_Error_fresh (e : String) (code : Nat) :
    http.Error NewRecorder e code =
      { Code := code,
        HeaderMap := [("X-Content-Type-Options", "nosniff"),
          ("Content-Type", "text/plain; charset=utf-8")],
        Body := e ++ "\n", wroteHeader := true } := by
  simp [http.Error, NewRecorder, ResponseWriter.HeaderSet, ResponseWriter.WriteHeader,
    fmt.Fprintln, ResponseWriter.Write]

/-! ## `filepath.Clean` and `filepath.Join` -/

theorem cleanLoop_nil (rooted : Bool) (fuel : Nat) (s : CleanState) :
    cleanLoop rooted fuel [] s = s := by
  cases fuel <;> rfl

theorem copyElement_length (path out : List Char) :
    (copyElement path out).1.length ≤ path.length := by
  induction path generalizing out with
  | nil => simp [copyElement]
  | cons c rest ih =>
    unfold copyElement
    split
    · simp
    · exact Nat.le_succ_of_le (ih _)

/-- The fuel of `cleanLoop` is never exhausted: any fuel of at least the length
of the unread path gives the same result. -/
theorem cleanLoop_fuel_succ (rooted : Bool) (fuel : Nat) :
    ∀ (path : List Char) (s : CleanState), path.length ≤ fuel →
      cleanLoop rooted (fuel + 1) path s = cleanLoop rooted fuel path s := by
  induction fuel with
  | zero =>
    intro path s h
    have : path = [] := List.length_eq_zero.mp (Nat.le_zero.mp h)
    subst this
    simp [cleanLoop]
  | succ k ih =>
    intro path s h
    cases path with
    | nil => simp [cleanLoop]
    | cons c rest =>
      have hr : rest.length ≤ k := by simpa using h
      have ht : rest.tail.length ≤ k := by
        have := List.length_tail rest
        omega
      have hcopy : ∀ out, (copyElement (c :: rest) out).1.length ≤ k ∨ os.IsPathSeparator c = true := by
        intro out
        by_cases hc : os.IsPathSeparator c = true
        · exact Or.inr hc
        · left
          have := copyElement_length rest (out ++ [c])
          simp only [copyElement, hc]
          simp only [Bool.false_eq_true, if_false]
          omega
      conv_lhs => rw [cleanLoop]
      conv_rhs => rw [cleanLoop]
      by_cases hc : os.IsPathSeparator c = true
      · simp only [hc, if_true]
        exact ih rest s hr
      · simp only [hc, Bool.false_eq_true, if_false]
        split
        · exact ih rest s hr
        · split
          · split
            · exact ih _ _ ht
            · split
              · exact ih _ _ ht
              · exact ih _ _ ht
          · rcases hcopy (if (rooted && s.out.length != 1 || !rooted && s.out.length != 0) = true
                then s.out ++ ['/'] else s.out) with h1 | h1
            · exact ih _ _ h1
            · exact absurd h1 hc

theorem cleanLoop_fuel (rooted : Bool) (path : List Char) (s : CleanState) (fuel : Nat)
    (h : path.length ≤ fuel) :
    cleanLoop rooted fuel path s = cleanLoop rooted path.length path s := by
  induction fuel with
  | zero =>
    have : path.length = 0 := Nat.le_zero.mp h
    rw [this]
  | succ k ih =>
    rcases Nat.lt_or_ge path.length (k + 1) with hlt | hge
    · rw [cleanLoop_fuel_succ rooted k path s (Nat.lt_succ_iff.mp hlt)]
      exact ih (Nat.lt_succ_iff.mp hlt)
    · have : path.length = k + 1 := Nat.le_antisymm h hge
      rw [this]

theorem copyElement_no_separator (f out : List Char) (hs : '/' ∉ f) :
    copyElement f out = ([], out ++ f) := by
  induction f generalizing out with
  | nil => simp [copyElement]
  | cons c rest ih =>
    have hc : c ≠ '/' := fun h => hs (by simp [h])
    have hr : '/' ∉ rest := fun h => hs (by simp [h])
    simp [copyElement, os.IsPathSeparator, hc, ih _ hr]

/-- Cleaning `/data/` followed by one plain element changes nothing. -/
theorem cleanChars_dataDir_plain (f : List Char) (h0 : f ≠ []) (h1 : f ≠ ['.'])
    (h2 : f ≠ ['.', '.']) (hs : '/' ∉ f) :
    cleanChars ('/' :: 'd' :: 'a' :: 't' :: 'a' :: '/' :: f) =
      '/' :: 'd' :: 'a' :: 't' :: 'a' :: '/' :: f := by
  obtain ⟨c, rest, rfl⟩ := List.exists_cons_of_ne_nil h0
  have hc : c ≠ '/' := fun h => hs (by simp [h])
  have hr : '/' ∉ rest := fun h => hs (by simp [h])
  have t1 : (c == '.' && atElementEnd rest) = false := by
    cases rest with
    | nil =>
      have : c ≠ '.' := fun h => h1 (by simp [h])
      simp [this]
    | cons d t =>
      have : d ≠ '/' := fun h => hr (by simp [h])
      simp [atElementEnd, os.IsPathSeparator, this]
  have t2 : (c == '.' && rest.head? == some '.' && atElementEnd rest.tail) = false := by
    cases rest with
    | nil => simp
    | cons d t =>
      cases t with
      | nil =>
        have : ¬ (c = '.' ∧ d = '.') := fun h => h2 (by simp [h.1, h.2])
        simp only [List.head?_cons, List.tail_cons, atElementEnd, Bool.and_true]
        by_cases hc1 : c = '.'
        · have hd : d ≠ '.' := fun h => this ⟨hc1, h⟩
          simp [hd]
        · simp [hc1]
      | cons e u =>
        have : e ≠ '/' := fun h => hr (by simp [h])
        simp [atElementEnd, os.IsPathSeparator, this]
  have hcopy := copyElement_no_separator (c :: rest) ['/', 'd', 'a', 't', 'a', '/'] hs
  simp only [cleanChars, os.IsPathSeparator, List.length_cons, beq_self_eq_true, if_true]
  rw [cleanLoop]
  simp [os.IsPathSeparator, atElementEnd, copyElement]
  rw [cleanLoop]
  simp [os.IsPathSeparator]
  rw [cleanLoop]
  simp [os.IsPathSeparator, hc, t1, t2, hcopy, cleanLoop_nil]

/-- For a plain name (not empty, not `.` or `..`, no separator) the destination
is the storage directory, a separator and the name unchanged. -/
theorem Join_dataDir_plain (F : String) (h0 : F ≠ "") (h1 : F ≠ ".") (h2 : F ≠ "..")
    (hs : '/' ∉ F.data) :
    filepath.Join [dataDir, F] = dataDir ++ "/" ++ F := by
  have e0 : F.data ≠ [] := fun h => h0 (String.ext h)
  have e1 : F.data ≠ ['.'] := fun h => h1 (String.ext h)
  have e2 : F.data ≠ ['.', '.'] := fun h => h2 (String.ext h)
  have hj : (String.intercalate "/" [dataDir, F]).data =
      '/' :: 'd' :: 'a' :: 't' :: 'a' :: '/' :: F.data := by
    simp [String.intercalate, String.intercalate.go, dataDir, String.data_append]
  apply String.ext
  simp only [filepath.Join, filepath.join, filepath.Clean, hj,
    cleanChars_dataDir_plain F.data e0 e1 e2 hs, String.data_append]
  simp [dataDir]

/-! ## Upload handler -/

/-- C1: a POST whose part `file` has filename `F` and bytes `B`, on a file system
where creating and writing the destination succeed, leaves a file with contents
exactly `B` at the destination `filepath.Join(dataDir, F)` (the file named `F` of
the storage directory; for a plain name this is literally `dataDir/F`) and
answers 200 with body `Upload successful: F`. -/
theorem uploadHandler_success (env : Env) (r : Request) (F : String) (B : Bytes)
    (hm : r.Method = "POST")
    (hf : r.FormFile "file" = .ok (B, { Filename := F }))
    (hc : env.createErr (filepath.Join [dataDir, F]) = none)
    (hw : env.copyErr (filepath.Join [dataDir, F]) B = none) :
    (uploadHandler env NewRecorder r).1.files (filepath.Join [dataDir, F]) = some B ∧
    (F ≠ "" → F ≠ "." → F ≠ ".." → '/' ∉ F.data →
      (uploadHandler env NewRecorder r).1.files (dataDir ++ "/" ++ F) = some B) ∧
    (uploadHandler env NewRecorder r).2.Code = 200 ∧
    (uploadHandler env NewRecorder r).2.Body = "Upload successful: " ++ F := by
  have hfile : (uploadHandler env NewRecorder r).1.files (filepath.Join [dataDir, F]) =
      some B := by
    simp [uploadHandler, hm, hf, os.Create, hc, File.ReadFrom, hw]
  refine ⟨hfile, ?_, ?_, ?_⟩
  · intro h0 h1 h2 hs
    rw [← Join_dataDir_plain F h0 h1 h2 hs]
    exact hfile
  · simp [uploadHandler, hm, hf, os.Create, hc, File.ReadFrom, hw, NewRecorder,
      ResponseWriter.Write, ResponseWriter.WriteHeader]
  · simp [uploadHandler, hm, hf, os.Create, hc, File.ReadFrom, hw, NewRecorder,
      ResponseWriter.Write, ResponseWriter.WriteHeader]

theorem uploadHandler_success_witness :
    (uploadHandler (envWith []) NewRecorder
        (fileRequest "POST" "testfile.txt" [104, 105])).1.files
      (filepath.Join [dataDir, "testfile.txt"]) = some [104, 105] ∧
    ("testfile.txt" ≠ "" → "testfile.txt" ≠ "." → "testfile.txt" ≠ ".." →
      '/' ∉ "testfile.txt".data →
      (uploadHandler (envWith []) NewRecorder
        (fileRequest "POST" "testfile.txt" [104, 105])).1.files
        (dataDir ++ "/" ++ "testfile.txt") = some [104, 105]) ∧
    (uploadHandler (envWith []) NewRecorder
        (fileRequest "POST" "testfile.txt" [104, 105])).2.Code = 200 ∧
    (uploadHandler (envWith []) NewRecorder
        (fileRequest "POST" "testfile.txt" [104, 105])).2.Body =
      "Upload successful: " ++ "testfile.txt" :=
  uploadHandler_success (envWith []) (fileRequest "POST" "testfile.txt" [104, 105])
    "testfile.txt" [104, 105] rfl rfl rfl rfl

/-- C2: a request whose method is not POST is answered 405 and the file system
is left as it was: same files, no call issued. -/
theorem uploadHandler_method_not_allowed (env : Env) (r : Request)
    (hm : r.Method ≠ "POST") :
    (uploadHandler env NewRecorder r).2.Code = 405 ∧
    (uploadHandler env NewRecorder r).1.files = env.files ∧
    (uploadHandler env NewRecorder r).1.calls = env.calls := by
  simp [uploadHandler, hm, http_Error_fresh, http.StatusMethodNotAllowed]

theorem uploadHandler_method_not_allowed_witness :
    (uploadHandler (envWith []) NewRecorder (fileRequest "GET" "a.txt" [1, 2])).2.Code = 405 ∧
    (uploadHandler (envWith []) NewRecorder (fileRequest "GET" "a.txt" [1, 2])).1.files =
      (envWith []).files ∧
    (uploadHandler (envWith []) NewRecorder (fileRequest "GET" "a.txt" [1, 2])).1.calls =
      (envWith []).calls :=
  uploadHandler_method_not_allowed (envWith []) (fileRequest "GET" "a.txt" [1, 2]) (by decide)

/-- C3: a POST for which `r.FormFile("file")` fails with error `e` (no such field,
or a body that cannot be parsed) is answered 400 with a body made of the text
of `e` and a newline, and the file system is left as it was. -/
theorem uploadHandler_bad_request (env : Env) (r : Request) (e : String)
    (hm : r.Method = "POST") (hf : r.FormFile "file" = .error e) :
    (uploadHandler env NewRecorder r).2.Code = 400 ∧
    (uploadHandler env NewRecorder r).2.Body = e ++ "\n" ∧
    (uploadHandler env NewRecorder r).1.files = env.files ∧
    (uploadHandler env NewRecorder r).1.calls = env.calls := by
  simp [uploadHandler, hm, hf, http_Error_fresh, http.StatusBadRequest]

theorem uploadHandler_bad_request_witness :
    (uploadHandler (envWith []) NewRecorder (bareRequest "POST")).2.Code = 400 ∧
    (uploadHandler (envWith []) NewRecorder (bareRequest "POST")).2.Body =
      "http: no such file" ++ "\n" ∧
    (uploadHandler (envWith []) NewRecorder (bareRequest "POST")).1.files = (envWith []).files ∧
    (uploadHandler (envWith []) NewRecorder (bareRequest "POST")).1.calls = (envWith []).calls :=
  uploadHandler_bad_request (envWith []) (bareRequest "POST") "http: no such file" rfl rfl

/-- C5: when a file already stands at the destination of `F` with contents `B1`,
a successful upload of `B2` under `F` answers 200 and leaves exactly `B2` there;
and uploading `B1` then `B2` under `F` leaves the same files as uploading only `B2`. -/
theorem uploadHandler_overwrite (env : Env) (r1 r2 : Request) (F : String) (B1 B2 : Bytes)
    (hm1 : r1.Method = "POST") (hf1 : r1.FormFile "file" = .ok (B1, { Filename := F }))
    (hm2 : r2.Method = "POST") (hf2 : r2.FormFile "file" = .ok (B2, { Filename := F }))
    (hc : env.createErr (filepath.Join [dataDir, F]) = none)
    (hw1 : env.copyErr (filepath.Join [dataDir, F]) B1 = none)
    (hw2 : env.copyErr (filepath.Join [dataDir, F]) B2 = none) :
    (env.files (filepath.Join [dataDir, F]) = some B1 →
      (uploadHandler env NewRecorder r2).2.Code = 200 ∧
      (uploadHandler env NewRecorder r2).1.files (filepath.Join [dataDir, F]) = some B2) ∧
    (uploadHandler (uploadHandler env NewRecorder r1).1 NewRecorder r2).1.files =
      (uploadHandler env NewRecorder r2).1.files := by
  refine ⟨fun _ => ?_, ?_⟩
  · simp [uploadHandler, hm2, hf2, os.Create, hc, File.ReadFrom, hw2, NewRecorder,
      ResponseWriter.Write, ResponseWriter.WriteHeader]
  · simp [uploadHandler, hm1, hf1, hm2, hf2, os.Create, hc, File.ReadFrom, hw1, hw2]

theorem uploadHandler_overwrite_witness :
    (envExisting.files (filepath.Join [dataDir, "a.txt"]) = some [1, 2, 3, 4] →
      (uploadHandler envExisting NewRecorder (fileRequest "POST" "a.txt" [9])).2.Code = 200 ∧
      (uploadHandler envExisting NewRecorder (fileRequest "POST" "a.txt" [9])).1.files
        (filepath.Join [dataDir, "a.txt"]) = some [9]) ∧
    (uploadHandler
        (uploadHandler envExisting NewRecorder (fileRequest "POST" "a.txt" [1, 2, 3, 4])).1
        NewRecorder (fileRequest "POST" "a.txt" [9])).1.files =
      (uploadHandler envExisting NewRecorder (fileRequest "POST" "a.txt" [9])).1.files :=
  uploadHandler_overwrite envExisting (fileRequest "POST" "a.txt" [1, 2, 3, 4])
    (fileRequest "POST" "a.txt" [9]) "a.txt" [1, 2, 3, 4] [9] rfl rfl rfl rfl rfl rfl rfl

/-- C10: `uploadHandler` leaves every path other than the destination of the
request as it was (a file there before is there after with the same contents,
and no file appears there); `viewHandler` leaves all files as they were. -/
theorem handlers_frame (env : Env) (r : Request) (p : String)
    (hp : ∀ file handler, r.FormFile "file" = .ok (file, handler) →
      p ≠ filepath.Join [dataDir, handler.Filename]) :
    (uploadHandler env NewRecorder r).1.files p = env.files p ∧
    (viewHandler env NewRecorder r).1.files = env.files := by
  constructor
  · unfold uploadHandler
    split
    · rfl
    · cases hf : r.FormFile "file" with
      | error e => rfl
      | ok fh =>
        obtain ⟨file, handler⟩ := fh
        have hne := hp file handler hf
        cases hc : env.createErr (filepath.Join [dataDir, handler.Filename]) with
        | some e => simp [os.Create, hc]
        | none =>
          cases hw : env.copyErr (filepath.Join [dataDir, handler.Filename]) file with
          | some ne => simp [os.Create, hc, File.ReadFrom, hw, Function.update_noteq hne]
          | none => simp [os.Create, hc, File.ReadFrom, hw, Function.update_noteq hne]
  · unfold viewHandler os.ReadDir
    cases env.dirEntries dataDir <;> rfl

theorem handlers_frame_witness :
    (uploadHandler envExisting NewRecorder (fileRequest "POST" "b.txt" [7])).1.files
        "/data/a.txt" = envExisting.files "/data/a.txt" ∧
    (viewHandler envExisting NewRecorder (fileRequest "POST" "b.txt" [7])).1.files =
      envExisting.files :=
  handlers_frame envExisting (fileRequest "POST" "b.txt" [7]) "/data/a.txt"
    (by
      intro file handler h
      have h2 : handler.Filename = "b.txt" := by
        simp [fileRequest] at h
        rw [← h.2]
      rw [h2]
      decide)

/-- C7, as stated, fails: when `os.Create` fails with `permission denied` the body
is that text followed by a newline, not the text alone. -/
theorem error_body_counterexample :
    (uploadHandler envCreateFails NewRecorder (fileRequest "POST" "a.txt" [1])).2.Body =
      "permission denied\n" ∧
    ¬ ((uploadHandler envCreateFails NewRecorder (fileRequest "POST" "a.txt" [1])).2.Code = 500 ∧
      (uploadHandler envCreateFails NewRecorder (fileRequest "POST" "a.txt" [1])).2.Body =
        "permission denied") := by
  decide

/-- C7, amended: when creating the destination or copying into it fails with error
`e` in `uploadHandler`, or reading the storage directory fails with `e` in
`viewHandler`, the status is 500 and the body is the text of `e` followed by one
newline; in `viewHandler` nothing else is written (no part of an array) and the
content type is the one of an error text. -/
theorem io_error_response (env : Env) (r : Request) (e : String) :
    (∀ file handler, r.Method = "POST" → r.FormFile "file" = .ok (file, handler) →
      env.createErr (filepath.Join [dataDir, handler.Filename]) = some e →
        (uploadHandler env NewRecorder r).2.Code = 500 ∧
        (uploadHandler env NewRecorder r).2.Body = e ++ "\n") ∧
    (∀ file handler n, r.Method = "POST" → r.FormFile "file" = .ok (file, handler) →
      env.createErr (filepath.Join [dataDir, handler.Filename]) = none →
      env.copyErr (filepath.Join [dataDir, handler.Filename]) file = some (n, e) →
        (uploadHandler env NewRecorder r).2.Code = 500 ∧
        (uploadHandler env NewRecorder r).2.Body = e ++ "\n") ∧
    (env.dirEntries dataDir = .error e →
      (viewHandler env NewRecorder r).2.Code = 500 ∧
      (viewHandler env NewRecorder r).2.Body = e ++ "\n" ∧
      (viewHandler env NewRecorder r).2.HeaderGet "Content-Type" =
        some "text/plain; charset=utf-8") := by
  refine ⟨?_, ?_, ?_⟩
  · intro file handler hm hf hc
    simp [uploadHandler, hm, hf, os.Create, hc, http_Error_fresh,
      http.StatusInternalServerError]
  · intro file handler n hm hf hc hw
    simp [uploadHandler, hm, hf, os.Create, hc, File.ReadFrom, hw, http_Error_fresh,
      http.StatusInternalServerError]
  · intro hd
    simp [viewHandler, os.ReadDir, hd, http_Error_fresh, http.StatusInternalServerError,
      ResponseWriter.HeaderGet]

theorem io_error_response_witness :
    ((uploadHandler envCreateFails NewRecorder (fileRequest "POST" "a.txt" [1])).2.Code = 500 ∧
      (uploadHandler envCreateFails NewRecorder (fileRequest "POST" "a.txt" [1])).2.Body =
        "permission denied" ++ "\n") ∧
    ((uploadHandler envCopyFails NewRecorder (fileRequest "POST" "a.txt" [1, 2, 3])).2.Code = 500 ∧
      (uploadHandler envCopyFails NewRecorder (fileRequest "POST" "a.txt" [1, 2, 3])).2.Body =
        "no space left on device" ++ "\n") ∧
    ((viewHandler envReadDirFails NewRecorder (bareRequest "GET")).2.Code = 500 ∧
      (viewHandler envReadDirFails NewRecorder (bareRequest "GET")).2.Body =
        "open /data: no such file or directory" ++ "\n" ∧
      (viewHandler envReadDirFails NewRecorder (bareRequest "GET")).2.HeaderGet "Content-Type" =
        some "text/plain; charset=utf-8") :=
  ⟨(io_error_response envCreateFails (fileRequest "POST" "a.txt" [1]) "permission denied").1
      [1] { Filename := "a.txt" } rfl rfl rfl,
   (io_error_response envCopyFails (fileRequest "POST" "a.txt" [1, 2, 3])
      "no space left on device").2.1 [1, 2, 3] { Filename := "a.txt" } 2 rfl rfl rfl rfl,
   (io_error_response envReadDirFails (bareRequest "GET")
      "open /data: no such file or directory").2.2 rfl⟩

/-! ## The destination handed to `os.Create` -/

/-- C6, as stated, fails: for the filename `..` the path handed to `os.Create` is
`/`, not the storage directory followed by `..`; for the empty filename it is
`/data`. -/
theorem destination_counterexample :
    (uploadHandler envEmpty NewRecorder (fileRequest "POST" ".." [1])).1.calls.head? =
      some (FsCall.create "/") ∧
    "/" ≠ dataDir ++ "/" ++ ".." ∧
    (uploadHandler envEmpty NewRecorder (fileRequest "POST" "" [1])).1.calls.head? =
      some (FsCall.create "/data") ∧
    "/data" ≠ dataDir ++ "/" ++ "" := by
  decide

/-- C6, amended: whatever the filename `F` of the part, `uploadHandler` rejects
nothing and hands `filepath.Join(dataDir, F)` to `os.Create` as its first
file-system call; when `F` is a plain name (not empty, not `.` or `..`, no path
separator) that path is the storage directory, a separator and `F` unchanged. -/
theorem uploadHandler_destination (env : Env) (r : Request) (B : Bytes) (F : String)
    (hm : r.Method = "POST") (hf : r.FormFile "file" = .ok (B, { Filename := F })) :
    (∃ later, (uploadHandler env NewRecorder r).1.calls =
      env.calls ++ FsCall.create (filepath.Join [dataDir, F]) :: later) ∧
    (F ≠ "" → F ≠ "." → F ≠ ".." → '/' ∉ F.data →
      filepath.Join [dataDir, F] = dataDir ++ "/" ++ F) := by
  refine ⟨?_, Join_dataDir_plain F⟩
  cases hc : env.createErr (filepath.Join [dataDir, F]) with
  | some e => exact ⟨[], by simp [uploadHandler, hm, hf, os.Create, hc]⟩
  | none =>
    cases hw : env.copyErr (filepath.Join [dataDir, F]) B with
    | some ne =>
      exact ⟨[FsCall.write (filepath.Join [dataDir, F]) (B.take ne.1)], by
        simp [uploadHandler, hm, hf, os.Create, hc, File.ReadFrom, hw]⟩
    | none =>
      exact ⟨[FsCall.write (filepath.Join [dataDir, F]) B], by
        simp [uploadHandler, hm, hf, os.Create, hc, File.ReadFrom, hw]⟩

theorem uploadHandler_destination_witness :
    (∃ later, (uploadHandler envEmpty NewRecorder (fileRequest "POST" "a.txt" [1])).1.calls =
      envEmpty.calls ++ FsCall.create (filepath.Join [dataDir, "a.txt"]) :: later) ∧
    filepath.Join [dataDir, "a.txt"] = dataDir ++ "/" ++ "a.txt" :=
  ⟨(uploadHandler_destination envEmpty (fileRequest "POST" "a.txt" [1]) [1] "a.txt" rfl rfl).1,
   (uploadHandler_destination envEmpty (fileRequest "POST" "a.txt" [1]) [1] "a.txt" rfl rfl).2
      (by decide) (by decide) (by decide) (by decide)⟩

/-! ## View handler -/

theorem intercalate_go_append (x y s : String) (l : List String) :
    String.intercalate.go (x ++ y) s l = x ++ String.intercalate.go y s l := by
  induction l generalizing y with
  | nil => simp [String.intercalate.go]
  | cons a as ih =>
    simp only [String.intercalate.go]
    rw [String.append_assoc, String.append_assoc, ih, String.append_assoc]

/-- The loop of `viewHandler` on a non-empty rest of the listing. -/
theorem viewHandler_loop_cons (n : Nat) (rest : List String) :
    ∀ (i : Nat) (w : ResponseWriter) (a : String), w.wroteHeader = true →
      i + rest.length + 1 = n →
      viewHandler.loop n i (a :: rest) w =
        { w with Body := (String.intercalate.go (w.Body ++ ("\"" ++ a ++ "\"")) ","
            (rest.map fun name => "\"" ++ name ++ "\"")) } := by
  induction rest with
  | nil =>
    intro i w a hw hn
    have hi : ¬ ((i : Int) < (n : Int) - 1) := by
      simp only [List.length_nil] at hn
      omega
    simp [viewHandler.loop, ResponseWriter.Write, hw, hi, String.intercalate.go]
  | cons b bs ih =>
    intro i w a hw hn
    have hi : (i : Int) < (n : Int) - 1 := by
      simp only [List.length_cons] at hn
      omega
    have hn2 : i + 1 + bs.length + 1 = n := by
      simp only [List.length_cons] at hn
      omega
    rw [viewHandler.loop]
    simp only [hi, if_true, fmt.Fprint]
    rw [ih (i + 1) _ b (by simp [ResponseWriter.Write, hw]) hn2]
    simp [ResponseWriter.Write, hw, String.intercalate.go]

/-- The whole response of `viewHandler` when the directory read succeeds. -/
theorem viewHandler_ok (env : Env) (r : Request) (names : List String)
    (hd : env.dirEntries dataDir = .ok names) :
    (viewHandler env NewRecorder r).2 =
      { Code := 200, HeaderMap := [("Content-Type", "application/json")],
        Body := "[" ++ String.intercalate ","
          (names.map fun name => "\"" ++ name ++ "\"") ++ "]",
        wroteHeader := true } := by
  cases names with
  | nil =>
    simp [viewHandler, os.ReadDir, hd, NewRecorder, ResponseWriter.HeaderSet, fmt.Fprint,
      ResponseWriter.Write, ResponseWriter.WriteHeader, viewHandler.loop, String.intercalate]
  | cons a rest =>
    simp only [viewHandler, os.ReadDir, hd, fmt.Fprint]
    rw [viewHandler_loop_cons (a :: rest).length rest 0 _ a
      (by simp [NewRecorder, ResponseWriter.HeaderSet, ResponseWriter.Write,
        ResponseWriter.WriteHeader]) (by simp)]
    simp [NewRecorder, ResponseWriter.HeaderSet, ResponseWriter.Write,
      ResponseWriter.WriteHeader, String.intercalate, intercalate_go_append]

/-- C8: when the directory read returns the names `n1, ..., nk`, the body written by
`viewHandler` is `[`, then the names in that order, each between double quotes,
separated by single commas with none after the last, then `]`; for the empty
listing it is `[]`. -/
theorem viewHandler_body (env : Env) (r : Request) (names : List String)
    (hd : env.dirEntries dataDir = .ok names) :
    (viewHandler env NewRecorder r).2.Body =
      "[" ++ String.intercalate "," (names.map fun name => "\"" ++ name ++ "\"") ++ "]" ∧
    (names = [] → (viewHandler env NewRecorder r).2.Body = "[]") := by
  rw [viewHandler_ok env r names hd]
  refine ⟨rfl, ?_⟩
  intro h
  subst h
  rfl

theorem viewHandler_body_witness :
    (viewHandler (envWith ["a.txt", "b.txt", "c"]) NewRecorder (bareRequest "GET")).2.Body =
      "[" ++ String.intercalate ","
        (["a.txt", "b.txt", "c"].map fun name => "\"" ++ name ++ "\"") ++ "]" ∧
    (["a.txt", "b.txt", "c"] = [] →
      (viewHandler (envWith ["a.txt", "b.txt", "c"]) NewRecorder (bareRequest "GET")).2.Body =
        "[]") :=
  viewHandler_body (envWith ["a.txt", "b.txt", "c"]) (bareRequest "GET")
    ["a.txt", "b.txt", "c"] rfl

example : (viewHandler (envWith ["a.txt", "b.txt", "c"]) NewRecorder (bareRequest "GET")).2.Body =
    "[\"a.txt\",\"b.txt\",\"c\"]" := by decide

example : (viewHandler (envWith []) NewRecorder (bareRequest "GET")).2.Body = "[]" := by decide

/-! ## The handler of `TestViewHandler` -/

theorem Write_Body (w : ResponseWriter) (s : String) : (w.Write s).Body = w.Body ++ s := by
  cases hw : w.wroteHeader <;> simp [ResponseWriter.Write, ResponseWriter.WriteHeader, hw]

/-- Body left by the loop `for _, file := range files { fmt.Fprintln(w, file.Name()) }`. -/
theorem testLoop_eq (names : List String) :
    ∀ w : ResponseWriter,
      (names.foldl (fun w name => fmt.Fprintln w name) w).Body =
        names.foldl (fun b name => b ++ (name ++ "\n")) w.Body ∧
      (names.foldl (fun w name => fmt.Fprintln w name) w).Code =
        (if w.wroteHeader = true ∨ names = [] then w.Code else 200) := by
  induction names with
  | nil => intro w; simp
  | cons a rest ih =>
    intro w
    simp only [List.foldl_cons]
    refine ⟨by rw [(ih _).1]; simp [fmt.Fprintln, Write_Body], ?_⟩
    rw [(ih _).2]
    by_cases hw : w.wroteHeader = true <;>
      simp [fmt.Fprintln, ResponseWriter.Write, ResponseWriter.WriteHeader, hw]

theorem foldl_lines_last (names : List String) :
    ∀ b : String, names ≠ [] →
      (names.foldl (fun b name => b ++ (name ++ "\n")) b).data.getLast? = some '\n' := by
  induction names with
  | nil => intro b h; exact absurd rfl h
  | cons a rest ih =>
    intro b _
    simp only [List.foldl_cons]
    cases rest with
    | nil => simp [String.data_append]
    | cons c cs => exact ih _ (by simp)

theorem foldl_lines_join (names : List String) :
    ∀ b : String, names.foldl (fun b name => b ++ (name ++ "\n")) b =
      b ++ String.join (names.map fun name => name ++ "\n") := by
  induction names with
  | nil => intro b; simp [String.join]
  | cons a rest ih =>
    intro b
    simp only [List.foldl_cons, List.map_cons]
    rw [ih]
    have hj : ∀ (l : List String) (x : String),
        List.foldl (fun r s => r ++ s) x l = x ++ String.join l := by
      intro l
      induction l with
      | nil => intro x; simp [String.join]
      | cons y ys ihy =>
        intro x
        simp only [String.join, List.foldl_cons] at ihy ⊢
        rw [ihy (x ++ y), ihy ("" ++ y)]
        simp [String.append_assoc]
    simp only [String.join, List.foldl_cons]
    rw [hj, hj]
    simp [String.append_assoc]

/-- C9 fails on the code: on the listing `file1.txt`, `file2.txt` the body of
`viewHandler` is the bracketed array `["file1.txt","file2.txt"]`, not the lines
`file1.txt\nfile2.txt\n` that `TestViewHandler` asserts for `/view`; only the
handler written inside the test, commented as `viewHandler` with the data
directory overridden, produces those lines. -/
theorem viewHandler_lines_divergence :
    (viewHandler (envWith ["file1.txt", "file2.txt"]) NewRecorder (bareRequest "GET")).2.Body =
      "[\"file1.txt\",\"file2.txt\"]" ∧
    (viewHandler (envWith ["file1.txt", "file2.txt"]) NewRecorder (bareRequest "GET")).2.Body ≠
      "file1.txt\nfile2.txt\n" ∧
    (TestViewHandler.viewHandler "/tmp/t" (envWith ["file1.txt", "file2.txt"]) NewRecorder
      (bareRequest "GET")).2.Body = "file1.txt\nfile2.txt\n" := by
  decide

/-- The divergence holds on every listing: the handler written inside
`TestViewHandler` answers 200 with each name followed by a newline, in read
order, while `viewHandler` on the same listing writes the bracketed, quoted,
comma-separated array; the two bodies are never equal. -/
theorem TestViewHandler_body_differs (env : Env) (r : Request) (tempDir : String)
    (names : List String) (hd : env.dirEntries tempDir = .ok names) :
    (TestViewHandler.viewHandler tempDir env NewRecorder r).2.Code = 200 ∧
    (TestViewHandler.viewHandler tempDir env NewRecorder r).2.Body =
      String.join (names.map fun name => name ++ "\n") ∧
    (env.dirEntries dataDir = .ok names →
      (viewHandler env NewRecorder r).2.Body =
        "[" ++ String.intercalate "," (names.map fun name => "\"" ++ name ++ "\"") ++ "]" ∧
      (viewHandler env NewRecorder r).2.Body ≠
        (TestViewHandler.viewHandler tempDir env NewRecorder r).2.Body) := by
  have hb : (TestViewHandler.viewHandler tempDir env NewRecorder r).2.Body =
      names.foldl (fun b name => b ++ (name ++ "\n")) "" := by
    simp only [TestViewHandler.viewHandler, os.ReadDir, hd]
    exact (testLoop_eq names NewRecorder).1
  refine ⟨?_, ?_, ?_⟩
  · simp only [TestViewHandler.viewHandler, os.ReadDir, hd]
    rw [(testLoop_eq names NewRecorder).2]
    simp [NewRecorder]
  · rw [hb, foldl_lines_join]
    simp
  · intro hd2
    rw [viewHandler_ok env r names hd2, hb]
    refine ⟨rfl, ?_⟩
    intro h
    have hl := congrArg (fun t : String => t.data.getLast?) h
    simp only [String.data_append] at hl
    by_cases hn : names = []
    · subst hn
      simp at hl
    · rw [foldl_lines_last names "" hn, List.getLast?_concat] at hl
      simp at hl

example : decodeStringArray "[]" = some [] := by decide

example : decodeStringArray " [ \"a\" , \"b\\n\\u0041\" ] " = some ["a", "b\nA"] := by decide

example : decodeStringArray "[\"a\",]" = none := by decide

example : decodeStringArray "[\"a\"" = none := by decide

/-- C4 fails on the code: for a directory holding the file `a"b` the body of
`viewHandler` (status 200, content type `application/json`) is `["a"b"]`, which
is not JSON; for the file `a\tb` (backslash, `t`) the body decodes to a
different name. On a listing of harmless names the body decodes to the listing. -/
theorem viewHandler_json_unescaped :
    (viewHandler (envWith ["a\"b"]) NewRecorder (bareRequest "GET")).2.Code = 200 ∧
    (viewHandler (envWith ["a\"b"]) NewRecorder (bareRequest "GET")).2.HeaderGet
      "Content-Type" = some "application/json" ∧
    (viewHandler (envWith ["a\"b"]) NewRecorder (bareRequest "GET")).2.Body = "[\"a\"b\"]" ∧
    decodeStringArray
      (viewHandler (envWith ["a\"b"]) NewRecorder (bareRequest "GET")).2.Body = none ∧
    decodeStringArray
      (viewHandler (envWith ["a\\tb"]) NewRecorder (bareRequest "GET")).2.Body =
        some ["a\tb"] ∧
    decodeStringArray
      (viewHandler (envWith ["a.txt", "b.txt"]) NewRecorder (bareRequest "GET")).2.Body =
        some ["a.txt", "b.txt"] := by
  decide

/-! ### Names that need no escaping decode back -/

theorem jsonString_plain (text : List Char) (ht : ∀ c ∈ text, plainChar c) :
    ∀ (fuel : Nat) (acc rest : List Char), text.length < fuel →
      jsonString fuel (text ++ '\"' :: rest) acc = some (acc ++ text, rest) := by
  induction text with
  | nil =>
    intro fuel acc rest hf
    obtain ⟨k, rfl⟩ : ∃ k, fuel = k + 1 := ⟨fuel - 1, by simp at hf; omega⟩
    simp [jsonString]
  | cons c cs ih =>
    intro fuel acc rest hf
    obtain ⟨k, rfl⟩ : ∃ k, fuel = k + 1 := ⟨fuel - 1, by simp at hf; omega⟩
    obtain ⟨h1, h2, h3⟩ := ht c (by simp)
    have hk : cs.length < k := by simp at hf; omega
    have h3' : ¬ c.toNat < 32 := by omega
    simp only [List.cons_append, jsonString, h1, h2, h3', if_false]
    simpa using ih (fun d hd => ht d (by simp [hd])) k (acc ++ [c]) rest hk

theorem dropWhile_ws_cons (c : Char) (l : List Char) (h : jsonWs c = false) :
    List.dropWhile jsonWs (c :: l) = c :: l := by
  simp [List.dropWhile, h]

theorem jsonElements_quote (fuel : Nat) (rest : List Char) (acc : List String) :
    jsonElements (fuel + 1) ('\"' :: rest) acc =
      match jsonString (rest.length + 1) rest [] with
      | none => none
      | some (text, rest2) =>
        match rest2.dropWhile jsonWs with
        | d :: rest3 =>
          if d = ',' then jsonElements fuel rest3 (acc ++ [String.mk text])
          else if d = ']' then
            if rest3.dropWhile jsonWs = [] then some (acc ++ [String.mk text]) else none
          else none
        | [] => none := by
  rw [jsonElements, dropWhile_ws_cons _ _ (by decide)]
  simp only [if_true]

theorem arrayTail_length (more : List String) :
    ∀ a : String, more.length < (arrayTail a more).length := by
  induction more with
  | nil => intro a; simp [arrayTail]
  | cons b bs ih =>
    intro a
    have := ih b
    simp only [arrayTail, List.length_cons, List.length_append]
    omega

theorem jsonElements_plain (more : List String) :
    ∀ (a : String) (fuel : Nat) (acc : List String),
      (∀ name ∈ a :: more, ∀ c ∈ name.data, plainChar c) → more.length < fuel →
      jsonElements fuel (arrayTail a more) acc = some (acc ++ a :: more) := by
  induction more with
  | nil =>
    intro a fuel acc hs hf
    obtain ⟨k, rfl⟩ : ∃ k, fuel = k + 1 := ⟨fuel - 1, by simp at hf; omega⟩
    have hstr := fun fuel => jsonString_plain a.data (hs a (by simp)) fuel [] [']']
    simp only [List.nil_append] at hstr
    rw [arrayTail, jsonElements_quote, hstr _ (by simp; omega)]
    simp [dropWhile_ws_cons _ _ (show jsonWs ']' = false by decide)]
  | cons b bs ih =>
    intro a fuel acc hs hf
    obtain ⟨k, rfl⟩ : ∃ k, fuel = k + 1 := ⟨fuel - 1, by simp at hf; omega⟩
    have hk : bs.length < k := by simp at hf; omega
    have hstr := fun fuel =>
      jsonString_plain a.data (hs a (by simp)) fuel [] (',' :: arrayTail b bs)
    simp only [List.nil_append] at hstr
    have hrec := ih b k (acc ++ [a]) (fun name hn => hs name (by simp at hn ⊢; tauto)) hk
    rw [arrayTail, jsonElements_quote, hstr _ (by simp; omega)]
    simp [dropWhile_ws_cons _ _ (show jsonWs ',' = false by decide), hrec]

theorem intercalate_go_data (a : String) (more : List String) :
    ∀ acc : String,
      (String.intercalate.go (acc ++ ("\"" ++ a ++ "\"")) ","
        (more.map fun name => "\"" ++ name ++ "\"")).data ++ [']'] =
      acc.data ++ arrayTail a more := by
  induction more generalizing a with
  | nil =>
    intro acc
    simp [String.intercalate.go, arrayTail, String.data_append]
  | cons b bs ih =>
    intro acc
    simp only [List.map_cons, String.intercalate.go]
    rw [ih b (acc ++ ("\"" ++ a ++ "\"") ++ ",")]
    simp [arrayTail, String.data_append]

theorem decodeStringArray_arrayTail (body : String) (a : String) (more : List String)
    (hb : body.data = '[' :: arrayTail a more) :
    decodeStringArray body = jsonElements ((arrayTail a more).length + 1) (arrayTail a more) [] := by
  obtain ⟨t, ht⟩ : ∃ t, arrayTail a more = '\"' :: t := by
    cases more <;> exact ⟨_, rfl⟩
  rw [decodeStringArray, hb, dropWhile_ws_cons _ _ (by decide)]
  simp only [if_true]
  rw [ht, dropWhile_ws_cons _ _ (by decide)]
  simp

/-- When no name of the listing holds a double quote, a backslash or a control
character, the body of `viewHandler` decodes to exactly the listing. -/
theorem viewHandler_json_plain (env : Env) (r : Request) (names : List String)
    (hd : env.dirEntries dataDir = .ok names)
    (hs : ∀ name ∈ names, ∀ c ∈ name.data, plainChar c) :
    decodeStringArray (viewHandler env NewRecorder r).2.Body = some names := by
  rw [viewHandler_ok env r names hd]
  cases names with
  | nil => decide
  | cons a more =>
    have hdata : ("[" ++ String.intercalate ","
        ((a :: more).map fun name => "\"" ++ name ++ "\"") ++ "]").data =
        '[' :: arrayTail a more := by
      have := intercalate_go_data a more ""
      simp only [String.empty_append] at this
      simp [String.intercalate, String.data_append, this]
    rw [decodeStringArray_arrayTail _ a more hdata]
    simpa using jsonElements_plain more a ((arrayTail a more).length + 1) [] hs
      (Nat.lt_succ_of_lt (arrayTail_length more a))

end Main
